import Mathlib

/-!
Verification of the editor-integration core of `amazon-q-developer-cli`
(`crates/cli/src/cli/chat/editor_integration.rs`).

Strings are embedded as `List Char`; the cursor offset is a `Nat` counting
characters.  The fallible OS interactions of `launch_system_editor`
(file write, subprocess spawn, exit status, file read) are abstracted into
an `EditorWorld` record of outcomes; the pure string processing is embedded
verbatim from the source.
-/

/-- Model of Rust `str::trim_start`: drop the leading run of whitespace. -/
def trimStart (s : List Char) : List Char :=
  s.dropWhile Char.isWhitespace

/-- Model of Rust `str::trim_end`: drop the trailing run of whitespace. -/
def trimEnd (s : List Char) : List Char :=
  (s.reverse.dropWhile Char.isWhitespace).reverse

/-- Model of Rust `str::trim`: drop leading and trailing whitespace. -/
def trim (s : List Char) : List Char :=
  trimStart (trimEnd s)

/-- Model of Rust trim_end_matches with the LF pattern: repeatedly remove a
trailing line-feed character, i.e. drop the maximal trailing run of LF. -/
def trimEndMatchesNewline (s : List Char) : List Char :=
  (s.reverse.dropWhile (fun c => c = '\n')).reverse

/-- The two rustyline `Movement` values the source constructs
(`Movement::BeginningOfLine` and `Movement::EndOfLine`). -/
inductive Movement where
  | beginningOfLine : Movement
  | endOfLine : Movement
deriving DecidableEq, Repr

/-- The rustyline `Cmd` constructors the source constructs:
`Cmd::Noop`, `Cmd::Kill(Movement)`, `Cmd::Insert(RepeatCount, String)`
and `Cmd::Replace(Movement, Option<String>)`. -/
inductive Cmd where
  | noop : Cmd
  | kill : Movement → Cmd
  | insert : Nat → List Char → Cmd
  | replace : Movement → Option (List Char) → Cmd
deriving DecidableEq, Repr

/-- Embedding of `EditorLauncher::create_line_replacement_command`
(editor_integration.rs, lines 19-56), branch for branch. -/
def create_line_replacement_command (new_content current_text : List Char)
    (cursor_pos : Nat) : Option Cmd :=
  if new_content.isEmpty then
    if current_text.isEmpty then
      some Cmd.noop
    else
      some (Cmd.kill Movement.beginningOfLine)
  else if current_text.isEmpty then
    some (Cmd.insert 1 new_content)
  else
    if cursor_pos = 0 then
      some (Cmd.replace Movement.endOfLine (some new_content))
    else if current_text.length ≤ cursor_pos then
      some (Cmd.replace Movement.beginningOfLine (some new_content))
    else
      some (Cmd.replace Movement.endOfLine (some new_content))

/-- Modelled from the spec: how the host line-editor applies a buffer
primitive, which lives in the external rustyline crate, outside this
repository.  Per the spec (section 4.2) each primitive carries one
relative-to-cursor anchor: from-cursor-to-line-start
(`beginningOfLine`, the range before the cursor) or from-cursor-to-line-end
(`endOfLine`, the range from the cursor on); `kill` deletes the range,
`replace` substitutes its text for the range, `insert` splices its text at
the cursor the given number of times.  The cursor is clamped to the buffer
length.  Returns the resulting buffer text. -/
def applyCmd (c : Cmd) (text : List Char) (cursor : Nat) : List Char :=
  let cp := min cursor text.length
  match c with
  | Cmd.noop => text
  | Cmd.kill Movement.beginningOfLine => text.drop cp
  | Cmd.kill Movement.endOfLine => text.take cp
  | Cmd.insert n s => text.take cp ++ (List.replicate n s).flatten ++ text.drop cp
  | Cmd.replace Movement.beginningOfLine (some s) => s ++ text.drop cp
  | Cmd.replace Movement.endOfLine (some s) => text.take cp ++ s
  | Cmd.replace Movement.beginningOfLine none => text.drop cp
  | Cmd.replace Movement.endOfLine none => text.take cp

/-- The failure conditions of `launch_system_editor`: file-write failure,
subprocess-spawn failure, non-zero exit status, file-read failure. -/
inductive EditorError where
  | writeFailure : EditorError
  | spawnFailure : EditorError
  | nonZeroExit : EditorError
  | readFailure : EditorError
deriving DecidableEq, Repr

/-- Outcomes of the OS interactions performed by `launch_system_editor`,
abstracted: whether `fs::write` succeeds, whether `Command::status`
returns (spawn), whether the exit status is success, whether
`fs::read_to_string` succeeds, and the transformation the external editor
applied to the content of the scratch file. -/
structure EditorWorld where
  writeOk : Bool
  spawnOk : Bool
  exitSuccess : Bool
  readOk : Bool
  edit : List Char → List Char

/-- The pure tail of `launch_system_editor` (lines 98-105): `Ok(None)` when
the edited content trims to empty, otherwise `Ok(Some(_))` of the content
with the trailing run of line feeds removed by trim_end_matches. -/
def processEditedContent (edited : List Char) : Option (List Char) :=
  if (trim edited).isEmpty then none
  else some (trimEndMatchesNewline edited)

/-- Embedding of `EditorLauncher::launch_system_editor`
(editor_integration.rs, lines 59-106) over an `EditorWorld` of OS outcomes.
The first component is the returned `Result<Option<String>>`; the second
records whether `fs::remove_file` on the scratch file was reached before
returning.  The early `?` returns on write failure, spawn failure and read
failure do not reach a `remove_file` call; the non-zero-exit branch and the
final success path do. -/
def launch_system_editor (w : EditorWorld) (initial_content : List Char) :
    Except EditorError (Option (List Char)) × Bool :=
  if !w.writeOk then (Except.error EditorError.writeFailure, false)
  else if !w.spawnOk then (Except.error EditorError.spawnFailure, false)
  else if !w.exitSuccess then (Except.error EditorError.nonZeroExit, true)
  else if !w.readOk then (Except.error EditorError.readFailure, false)
  else (Except.ok (processEditedContent (w.edit initial_content)), true)

/-- Embedding of `ConditionalEventHandler::handle` for `EditorLauncher`
(editor_integration.rs, lines 110-137): run the editor on the current
line, short-circuit to `Noop` when the trimmed contents are equal,
reconcile otherwise, reconcile with empty content on `Ok(None)`, and
return `Noop` on any error. -/
def handle (w : EditorWorld) (current_text : List Char) (cursor_pos : Nat) :
    Option Cmd :=
  match (launch_system_editor w current_text).1 with
  | Except.ok (some edited) =>
      if trim edited = trim current_text then some Cmd.noop
      else create_line_replacement_command edited current_text cursor_pos
  | Except.ok none => create_line_replacement_command [] current_text cursor_pos
  | Except.error _ => some Cmd.noop

/-- The head of a dropWhile result never satisfies the predicate. -/
theorem head?_dropWhile_not {α : Type} (p : α → Bool) :
    ∀ (l : List α) (a : α), (l.dropWhile p).head? = some a → p a = false := by
  intro l
  induction l with
  | nil => intro a h; simp [List.dropWhile] at h
  | cons x xs ih =>
    intro a h
    cases hx : p x with
    | false =>
      rw [List.dropWhile_cons, if_neg (by simp [hx])] at h
      simp only [List.head?_cons, Option.some.injEq] at h
      rw [← h]
      exact hx
    | true =>
      rw [List.dropWhile_cons, if_pos (by simp [hx])] at h
      exact ih a h

/-- Dropping with a weaker predicate after a stronger one is the same as
dropping with the weaker predicate alone. -/
theorem dropWhile_dropWhile_of_imp {α : Type} (p q : α → Bool)
    (hpq : ∀ a, p a = true → q a = true) (l : List α) :
    (l.dropWhile p).dropWhile q = l.dropWhile q := by
  induction l with
  | nil => rfl
  | cons x xs ih =>
    cases hx : p x with
    | false =>
      rw [List.dropWhile_cons, if_neg (by simp [hx])]
    | true =>
      rw [List.dropWhile_cons, if_pos (by simp [hx]), ih, List.dropWhile_cons,
        if_pos (by simp [hpq x hx])]

/-- Every string decomposes as its newline-stripped form followed by a run
of line feeds. -/
theorem trimEndMatchesNewline_decomp (s : List Char) :
    ∃ k, s = trimEndMatchesNewline s ++ List.replicate k '\n' := by
  refine ⟨(s.reverse.takeWhile (fun c => c = '\n')).length, ?_⟩
  have h1 : ∀ b ∈ s.reverse.takeWhile (fun c => c = '\n'), b = '\n' := by
    intro b hb
    simpa using List.mem_takeWhile_imp hb
  have h2 := List.eq_replicate_of_mem h1
  conv_lhs => rw [← List.reverse_reverse s,
    ← List.takeWhile_append_dropWhile (fun c => c = '\n') s.reverse]
  rw [List.reverse_append, trimEndMatchesNewline]
  congr 1
  rw [h2, List.reverse_replicate, List.length_replicate]

/-- The newline-stripped form never ends with a line feed. -/
theorem trimEndMatchesNewline_getLast (s : List Char) :
    (trimEndMatchesNewline s).getLast? ≠ some '\n' := by
  rw [trimEndMatchesNewline, List.getLast?_reverse]
  intro h
  have := head?_dropWhile_not _ _ _ h
  simp at this

/-- Stripping trailing line feeds first does not change trimEnd, since line
feeds are whitespace. -/
theorem trimEnd_trimEndMatchesNewline (s : List Char) :
    trimEnd (trimEndMatchesNewline s) = trimEnd s := by
  rw [trimEnd, trimEnd, trimEndMatchesNewline, List.reverse_reverse,
    dropWhile_dropWhile_of_imp (fun c => c = '\n') Char.isWhitespace]
  intro a ha
  simp only [decide_eq_true_eq] at ha
  rw [ha]
  rfl

/-- Stripping trailing line feeds first does not change trim. -/
theorem trim_trimEndMatchesNewline (s : List Char) :
    trim (trimEndMatchesNewline s) = trim s := by
  rw [trim, trim, trimEnd_trimEndMatchesNewline]

/-- A string trims to empty exactly when every character is whitespace. -/
theorem trim_eq_nil_iff (s : List Char) :
    trim s = [] ↔ ∀ c ∈ s, c.isWhitespace = true := by
  rw [trim, trimStart, List.dropWhile_eq_nil_iff]
  constructor
  · intro h c hc
    have hc2 : c ∈ s.reverse := List.mem_reverse.mpr hc
    rw [← List.takeWhile_append_dropWhile Char.isWhitespace s.reverse] at hc2
    rcases List.mem_append.mp hc2 with h1 | h1
    · exact List.mem_takeWhile_imp h1
    · exact h c (by rw [trimEnd]; exact List.mem_reverse.mpr h1)
  · intro h c hc
    apply h
    rw [trimEnd] at hc
    exact List.mem_reverse.mp ((List.dropWhile_sublist _).subset (List.mem_reverse.mp hc))

/-- The runner post-processing returns none exactly when the edited content
is empty or whitespace-only. -/
theorem processEditedContent_eq_none_iff (edited : List Char) :
    processEditedContent edited = none ↔ ∀ c ∈ edited, c.isWhitespace = true := by
  rw [processEditedContent, ← trim_eq_nil_iff]
  by_cases h : trim edited = []
  · simp [h]
  · simp [h, List.isEmpty_iff]

/-- The runner post-processing on content that is not whitespace-only
returns the newline-stripped content. -/
theorem processEditedContent_eq_some (edited : List Char)
    (h : ¬ ∀ c ∈ edited, c.isWhitespace = true) :
    processEditedContent edited = some (trimEndMatchesNewline edited) := by
  rw [processEditedContent,
    if_neg (by simpa [List.isEmpty_iff, trim_eq_nil_iff] using h)]

/-- The reconciler returns a command on every input. -/
theorem crlc_isSome (new_content current_text : List Char) (cursor_pos : Nat) :
    (create_line_replacement_command new_content current_text cursor_pos).isSome = true := by
  by_cases h1 : new_content.isEmpty <;> by_cases h2 : current_text.isEmpty <;>
    by_cases h3 : cursor_pos = 0 <;> by_cases h4 : current_text.length ≤ cursor_pos <;>
      simp [create_line_replacement_command, h1, h2, h3, h4]

/-- Claim C1, counterexample: with new content b, current text aa (both
non-empty, differing after trimming), the reconciler returns different
primitives at cursor offsets 0 and 2, and the primitive returned for the
interior offset 1 does not span the whole line when applied — the prefix
before the cursor survives. -/
theorem C1_counterexample :
    create_line_replacement_command ['b'] ['a', 'a'] 0 ≠
      create_line_replacement_command ['b'] ['a', 'a'] 2 ∧
    create_line_replacement_command ['b'] ['a', 'a'] 1 =
      some (Cmd.replace Movement.endOfLine (some ['b'])) ∧
    applyCmd (Cmd.replace Movement.endOfLine (some ['b'])) ['a', 'a'] 1 ≠
      ['b'] := by
  refine ⟨by decide, rfl, by decide⟩

/-- Claim C1, amended: for both inputs non-empty (and differing after
trimming), the reconciler returns a Replace primitive carrying exactly the
new content at every cursor offset; its anchor depends on the offset —
beginning-of-line when the offset is at or past the end of the current
text, end-of-line otherwise — so the replaced span covers the whole line
only for offset 0 or offsets at or past the end. -/
theorem C1_full_line_replace (new_content current_text : List Char)
    (cursor_pos : Nat) (h1 : new_content ≠ []) (h2 : current_text ≠ [])
    (h3 : trim new_content ≠ trim current_text) :
    create_line_replacement_command new_content current_text cursor_pos =
      some (Cmd.replace
        (if current_text.length ≤ cursor_pos then Movement.beginningOfLine
          else Movement.endOfLine)
        (some new_content)) := by
  rw [create_line_replacement_command,
    if_neg (by simpa [List.isEmpty_iff] using h1),
    if_neg (by simpa [List.isEmpty_iff] using h2)]
  by_cases hc : cursor_pos = 0
  · subst hc
    rw [if_pos rfl,
      if_neg (by simpa [Nat.le_zero, List.length_eq_zero] using h2)]
  · rw [if_neg hc]
    by_cases hl : current_text.length ≤ cursor_pos
    · rw [if_pos hl, if_pos hl]
    · rw [if_neg hl, if_neg hl]

/-- Claim C1, witness for the amended theorem at new content b, current
text a, cursor offset 0. -/
theorem C1_full_line_replace_witness :
    create_line_replacement_command ['b'] ['a'] 0 =
      some (Cmd.replace
        (if List.length ['a'] ≤ 0 then Movement.beginningOfLine
          else Movement.endOfLine)
        (some ['b'])) :=
  C1_full_line_replace ['b'] ['a'] 0 (by decide) (by decide) (by decide)

/-- Claim C2: at the failing input (empty new content, current text
old content, cursor offset 0) the code returns Kill(BeginningOfLine),
which deletes only the text between the start of the line and the cursor;
applied with the cursor at offset 0 it deletes nothing, so the line is not
cleared, contradicting the stated whole-line clear (and the comment in the
source saying the command should clear all content on the line). -/
theorem C2_kill_backward_only :
    create_line_replacement_command []
      ['o', 'l', 'd', ' ', 'c', 'o', 'n', 't', 'e', 'n', 't'] 0 =
      some (Cmd.kill Movement.beginningOfLine) ∧
    applyCmd (Cmd.kill Movement.beginningOfLine)
      ['o', 'l', 'd', ' ', 'c', 'o', 'n', 't', 'e', 'n', 't'] 0 =
      ['o', 'l', 'd', ' ', 'c', 'o', 'n', 't', 'e', 'n', 't'] :=
  ⟨rfl, rfl⟩

/-- Claim C7: the reconciler is a total function; an out-of-range cursor
offset (at or past the length of the current text) produces exactly the
result produced with the cursor at the end of the text, and a command is
returned for every input. -/
theorem C7_out_of_range_clamped (new_content current_text : List Char)
    (cursor_pos : Nat) (h : current_text.length ≤ cursor_pos) :
    create_line_replacement_command new_content current_text cursor_pos =
      create_line_replacement_command new_content current_text
        current_text.length ∧
    (create_line_replacement_command new_content current_text
      cursor_pos).isSome = true := by
  refine ⟨?_, crlc_isSome _ _ _⟩
  by_cases h1 : new_content.isEmpty
  · simp [create_line_replacement_command, h1]
  · by_cases h2 : current_text.isEmpty
    · simp [create_line_replacement_command, h1, h2]
    · have hlen : 0 < current_text.length := by
        rcases current_text with _ | ⟨a, l⟩
        · simp at h2
        · simp
      have hc0 : ¬ cursor_pos = 0 := by omega
      simp [create_line_replacement_command, h1, h2, hc0, h,
        Nat.pos_iff_ne_zero.mp hlen]

/-- Claim C7, witness at new content b, current text a, cursor offset 5. -/
theorem C7_out_of_range_clamped_witness :
    create_line_replacement_command ['b'] ['a'] 5 =
      create_line_replacement_command ['b'] ['a'] (List.length ['a']) ∧
    (create_line_replacement_command ['b'] ['a'] 5).isSome = true :=
  C7_out_of_range_clamped ['b'] ['a'] 5 (by decide)

/-- Claim C8: with empty current text and non-empty new content the
reconciler returns an Insert primitive (repeat count 1) carrying exactly
the new content, for every cursor offset, and applying it to the empty
buffer yields the new content inserted at position 0. -/
theorem C8_insert_on_empty (new_content : List Char) (cursor_pos : Nat)
    (h : new_content ≠ []) :
    create_line_replacement_command new_content [] cursor_pos =
      some (Cmd.insert 1 new_content) ∧
    applyCmd (Cmd.insert 1 new_content) [] cursor_pos = new_content := by
  constructor
  · simp [create_line_replacement_command, List.isEmpty_iff, h]
  · simp [applyCmd]

/-- Claim C8, witness at new content a, cursor offset 7. -/
theorem C8_insert_on_empty_witness :
    create_line_replacement_command ['a'] [] 7 =
      some (Cmd.insert 1 ['a']) ∧
    applyCmd (Cmd.insert 1 ['a']) [] 7 = ['a'] :=
  C8_insert_on_empty ['a'] 7 (by decide)

/-- Claim C3: when every OS step succeeds (write, spawn, zero exit, read),
the runner returns Ok(None) if the final scratch-file content is empty or
whitespace-only, and otherwise Ok(Some(t)) where the content is exactly t
followed by the trailing run of line feeds and t does not end in a line
feed — all other characters preserved. -/
theorem C3_success_read_result (w : EditorWorld) (init : List Char)
    (hw : w.writeOk = true) (hs : w.spawnOk = true)
    (he : w.exitSuccess = true) (hr : w.readOk = true) :
    ((∀ c ∈ w.edit init, c.isWhitespace = true) →
        (launch_system_editor w init).1 = Except.ok none) ∧
    (¬ (∀ c ∈ w.edit init, c.isWhitespace = true) →
      ∃ t k, (launch_system_editor w init).1 = Except.ok (some t) ∧
        w.edit init = t ++ List.replicate k '\n' ∧
        t.getLast? ≠ some '\n') := by
  have hL : (launch_system_editor w init).1 =
      Except.ok (processEditedContent (w.edit init)) := by
    rw [launch_system_editor]
    simp [hw, hs, he, hr]
  constructor
  · intro hws
    rw [hL, (processEditedContent_eq_none_iff _).mpr hws]
  · intro hws
    obtain ⟨k, hk⟩ := trimEndMatchesNewline_decomp (w.edit init)
    exact ⟨trimEndMatchesNewline (w.edit init), k,
      by rw [hL, processEditedContent_eq_some _ hws], hk,
      trimEndMatchesNewline_getLast _⟩

/-- A world in which every OS step succeeds and the external editor leaves
the scratch file containing the character a followed by a line feed. -/
def allOkWorld : EditorWorld :=
  ⟨true, true, true, true, fun _ => ['a', '\n']⟩

/-- Claim C3, witness in the all-success world. -/
theorem C3_success_read_result_witness :
    ((∀ c ∈ allOkWorld.edit [], c.isWhitespace = true) →
        (launch_system_editor allOkWorld []).1 = Except.ok none) ∧
    (¬ (∀ c ∈ allOkWorld.edit [], c.isWhitespace = true) →
      ∃ t k, (launch_system_editor allOkWorld []).1 = Except.ok (some t) ∧
        allOkWorld.edit [] = t ++ List.replicate k '\n' ∧
        t.getLast? ≠ some '\n') :=
  C3_success_read_result allOkWorld [] rfl rfl rfl rfl

/-- A world in which write, spawn and the exit status succeed but reading
the scratch file back fails. -/
def readFailWorld : EditorWorld :=
  ⟨true, true, true, false, fun s => s⟩

/-- Claim C4, counterexample: on the read-failure exit path the function
returns the error without ever reaching the remove_file call, so the
scratch file is not removed on that path. -/
theorem C4_counterexample :
    (launch_system_editor readFailWorld ['x']).1 =
      Except.error EditorError.readFailure ∧
    (launch_system_editor readFailWorld ['x']).2 = false :=
  ⟨rfl, rfl⟩

/-- Claim C4, amended: the remove_file call on the scratch file is reached
exactly on the successful-read path and on the non-zero-exit path; the
early returns on write failure, spawn failure and read failure leave the
scratch file in place. -/
theorem C4_cleanup_paths (w : EditorWorld) (init : List Char) :
    (launch_system_editor w init).2 =
      (w.writeOk && w.spawnOk && (!w.exitSuccess || w.readOk)) := by
  rcases w with ⟨wo, so, es, ro, ed⟩
  cases wo <;> cases so <;> cases es <;> cases ro <;> rfl

/-- A world in which spawning the external editor fails. -/
def spawnFailWorld : EditorWorld :=
  ⟨true, false, true, true, fun s => s⟩

/-- Claim C5: whenever the runner returns an error, the trigger handler
returns the Noop primitive, and applying Noop leaves the buffer
unchanged. -/
theorem C5_error_noop (w : EditorWorld) (current_text : List Char)
    (cursor_pos : Nat) (e : EditorError)
    (h : (launch_system_editor w current_text).1 = Except.error e) :
    handle w current_text cursor_pos = some Cmd.noop ∧
    applyCmd Cmd.noop current_text cursor_pos = current_text := by
  refine ⟨?_, rfl⟩
  rw [handle, h]

/-- Claim C5, witness in the spawn-failure world. -/
theorem C5_error_noop_witness :
    handle spawnFailWorld ['h', 'i'] 0 = some Cmd.noop ∧
    applyCmd Cmd.noop ['h', 'i'] 0 = ['h', 'i'] :=
  C5_error_noop spawnFailWorld ['h', 'i'] 0 EditorError.spawnFailure rfl

/-- Claim C6: whenever the runner returns content whose trim equals the
trim of the current text, the handler returns Noop; and the equality
short-circuit lives in the handler, not in the reconciler — on
trimmed-equal but distinct non-empty inputs the reconciler itself still
returns a Replace, not Noop. -/
theorem C6_trim_equal_shortcircuit :
    (∀ (w : EditorWorld) (current_text edited : List Char)
        (cursor_pos : Nat),
      (launch_system_editor w current_text).1 = Except.ok (some edited) →
      trim edited = trim current_text →
      handle w current_text cursor_pos = some Cmd.noop) ∧
    (trim ['a', ' '] = trim ['a'] ∧
      create_line_replacement_command ['a', ' '] ['a'] 0 =
        some (Cmd.replace Movement.endOfLine (some ['a', ' ']))) := by
  refine ⟨?_, by decide, rfl⟩
  intro w ct ed cp hL ht
  rw [handle, hL]
  show (if trim ed = trim ct then some Cmd.noop
    else create_line_replacement_command ed ct cp) = some Cmd.noop
  rw [if_pos ht]

/-- Claim C9: whenever the runner returns Ok(Some(s)), the string s is
non-empty, not whitespace-only, and does not end with a line feed. -/
theorem C9_some_nonempty (w : EditorWorld) (init s : List Char)
    (h : (launch_system_editor w init).1 = Except.ok (some s)) :
    s ≠ [] ∧ trim s ≠ [] ∧ s.getLast? ≠ some '\n' := by
  have hp : processEditedContent (w.edit init) = some s := by
    rcases w with ⟨wo, so, es, ro, ed⟩
    rw [launch_system_editor] at h
    cases wo <;> cases so <;> cases es <;> cases ro <;> simp at h <;> exact h
  rw [processEditedContent] at hp
  by_cases ht : (trim (w.edit init)).isEmpty
  · rw [if_pos ht] at hp
    exact absurd hp (by simp)
  · rw [if_neg ht] at hp
    have hs : s = trimEndMatchesNewline (w.edit init) := by
      simpa using hp.symm
    subst hs
    have htr : trim (trimEndMatchesNewline (w.edit init)) ≠ [] := by
      rw [trim_trimEndMatchesNewline]
      simpa [List.isEmpty_iff] using ht
    refine ⟨?_, htr, trimEndMatchesNewline_getLast _⟩
    intro hnil
    rw [hnil] at htr
    exact htr rfl

/-- Claim C9, witness in the all-success world: there the runner returns
Ok(Some([a])). -/
theorem C9_some_nonempty_witness :
    ['a'] ≠ ([] : List Char) ∧ trim ['a'] ≠ [] ∧
    List.getLast? ['a'] ≠ some '\n' :=
  C9_some_nonempty allOkWorld [] ['a'] rfl

/-- Claim C10: for every runner outcome and every current text and cursor
offset, the handler returns some command — never none. -/
theorem C10_handle_total (w : EditorWorld) (current_text : List Char)
    (cursor_pos : Nat) :
    (handle w current_text cursor_pos).isSome = true := by
  rcases hL : (launch_system_editor w current_text).1 with e | o
  · rw [handle, hL]
    rfl
  · rcases o with _ | ed
    · rw [handle, hL]
      exact crlc_isSome _ _ _
    · rw [handle, hL]
      show (if trim ed = trim current_text then some Cmd.noop
        else create_line_replacement_command ed current_text
          cursor_pos).isSome = true
      by_cases ht : trim ed = trim current_text
      · rw [if_pos ht]
        rfl
      · rw [if_neg ht]
        exact crlc_isSome _ _ _
